import Mathlib

/-!
# TwitchChatRenderer: emoticon atlas, comment cursor and word wrap

A shallow embedding of the parts of `emoticon.go`, `comments.go` and `main.go`
that decide the behaviour of the texture packer (`generateSpriteSheet`), the
emoticon cache (`NewEmoticonCache`) and the frame loop of `run`.

Modelling conventions.
* Go `int` is `Int`.  The packer only doubles the atlas side and adds image
  sizes; the sums stay far below `2^63` for every atlas that fits in memory,
  so no wrap-around is modelled.
* `pixel.Rect` stores `float64` coordinates that are conversions of `int`
  values; they are kept as `Int`.
* A Go `map[string]*EmoticonData` is a list of key/value entries.  The order in
  which `range` enumerates a map is not fixed by the language and may change
  from one loop to the next, so the enumeration of pass `n` is given by a
  parameter `order n`, only required to permute the entries.
* A finite `float64` is the rational number it denotes, so times and widths are
  in `ℚ` and comparisons are those of `ℚ`; infinities and NaN are not modelled.
  The `float64` arithmetic that gives the frame count and the frame times
  (lines 189-191 and 207 of `main.go`) is the parameter `Float64Ops`: nothing
  is assumed about how it rounds, and the statements about the cursor hold for
  any list of frame times.  The width sums of the layout are kept exact; they
  decide where lines break, not which comments are laid out.
* `downloadImage`, `json.Unmarshal` and the text measure `txt.BoundsOf` belong
  to libraries and are parameters.
* The loop `for fit == false` has no bound in the source; its model takes a
  fuel argument and answers `none` when the fuel is used up.
-/

deriving instance DecidableEq for Except

namespace TwitchChatRenderer

/-! ## Data model (`emoticon.go`, `comments.go`) -/

/-- The part of an `image.Image` the packer reads: `Bounds().Dx()` and `Bounds().Dy()`. -/
structure Image where
  Dx : Int
  Dy : Int
deriving DecidableEq, Repr

/-- Type `image.Rectangle`, with corners `Min` and `Max`. -/
structure Rectangle where
  MinX : Int
  MinY : Int
  MaxX : Int
  MaxY : Int
deriving DecidableEq, Repr

/-- Method `image.Rectangle.Dy`. -/
def Rectangle.Dy (r : Rectangle) : Int := r.MaxY - r.MinY

/-- Function `image.Rect`: the rectangle with the given corners, reordered when needed so that
`Min ≤ Max` on both axes. -/
def imageRect (x0 y0 x1 y1 : Int) : Rectangle :=
  let (x0, x1) := if x0 > x1 then (x1, x0) else (x0, x1)
  let (y0, y1) := if y0 > y1 then (y1, y0) else (y0, y1)
  ⟨x0, y0, x1, y1⟩

/-- Type `pixel.Vec`. -/
structure Vec where
  X : Int
  Y : Int
deriving DecidableEq, Repr

/-- Type `pixel.Rect`: no normalisation of the corners is done by the literal. -/
structure Rect where
  Min : Vec
  Max : Vec
deriving DecidableEq, Repr

/-- Method `pixel.Rect.W`. -/
def Rect.W (r : Rect) : Int := r.Max.X - r.Min.X

/-- Method `pixel.Rect.H`. -/
def Rect.H (r : Rect) : Int := r.Max.Y - r.Min.Y

structure EmoticonData where
  URL : String
  Text : String
  Img : Image
  Bounds : Rect
deriving DecidableEq, Repr

/-- A Go `map[string]*EmoticonData` as its list of entries. -/
abbrev Cache := List (String × EmoticonData)

/-- One `draw.Draw(spriteMap, r, v.Img, image.Point{0, 0}, draw.Src)` call; `key` remembers
which map entry was being enumerated. -/
structure DrawCall where
  key : String
  r : Rectangle
  src : Image
deriving DecidableEq, Repr

/-- The `*image.RGBA` made by `image.NewRGBA(image.Rect(0, 0, curW, curH))`, as its bounds and
the draw calls it has received. -/
structure SpriteMap where
  bounds : Rectangle
  draws : List DrawCall
deriving DecidableEq, Repr

/-! ## `generateSpriteSheet` -/

/-- The variables of one pass of `FitLoop`: the scan position, the row height, the flag, the
sprite map and the entries enumerated so far (with the `Bounds` written to them). -/
structure FitState where
  x : Int
  y : Int
  maxY : Int
  fit : Bool
  spriteMap : SpriteMap
  cache : Cache
deriving DecidableEq, Repr

/-- Lines 70-79 of `emoticon.go`: draw the image at the scan position, record its `Bounds`
with the Y axis flipped, advance `x` and update the row height. -/
def place (curH : Int) (k : String) (v : EmoticonData) (s : FitState) : FitState :=
  let minX := s.x
  let minY := s.y
  let maX := s.x + v.Img.Dx
  let maY := s.y + v.Img.Dy
  { x := s.x + v.Img.Dx
    y := s.y
    maxY := if v.Img.Dy > s.maxY then v.Img.Dy else s.maxY
    fit := s.fit
    spriteMap := { s.spriteMap with
      draws := s.spriteMap.draws ++ [⟨k, imageRect minX minY maX maY, v.Img⟩] }
    cache := s.cache ++
      [(k, { v with Bounds := ⟨⟨minX, curH - minY⟩, ⟨maX, curH - maY⟩⟩ })] }

/-- The loop `FitLoop` over the entries in enumeration order.  On `break FitLoop` the entries
not yet enumerated are kept as they are. -/
def fitLoop (curW curH : Int) : List (String × EmoticonData) → FitState → FitState
  | [], s => s
  | (k, v) :: rest, s =>
    if s.x + v.Img.Dx > curW then
      let y := s.y + s.maxY
      if y ≥ curH then
        { s with x := 0, y := y, maxY := -1, fit := false, cache := s.cache ++ (k, v) :: rest }
      else
        fitLoop curW curH rest (place curH k v { s with x := 0, y := y, maxY := -1 })
    else
      fitLoop curW curH rest (place curH k v s)

/-- The state at the top of a pass: lines 52-55. -/
def initFit (curW curH : Int) : FitState :=
  { x := 0, y := 0, maxY := -1, fit := true
    spriteMap := ⟨imageRect 0 0 curW curH, []⟩, cache := [] }

/-- The loop `for fit == false` of `generateSpriteSheet`, from pass number `pass` on.
`none`: the fuel is used up.  `some (.error _)`: the `return` of line 88.
`some (.ok (m, c))`: the `return spriteMap, nil` of line 83, with the cache as the passes
left it. -/
def sheetLoop (order : Nat → Cache → Cache) :
    Nat → Nat → Cache → Int → Int → Bool → Option (Except String (SpriteMap × Cache))
  | _, _, _, _, _, true => some (.error "Unable to generate sprite map")
  | 0, _, _, _, _, false => none
  | fuel + 1, pass, cache, curW, curH, false =>
    let s := fitLoop curW curH (order pass cache) (initFit curW curH)
    if s.fit = true then some (.ok (s.spriteMap, s.cache))
    else sheetLoop order fuel (pass + 1) s.cache (curW * 2) (curH * 2) s.fit

def generateSpriteSheet (order : Nat → Cache → Cache) (fuel : Nat) (cache : Cache) :
    Option (Except String (SpriteMap × Cache)) :=
  sheetLoop order fuel 0 cache 256 256 false

/-! ## `comments.go` -/

structure Emoticon where
  EmoticonSetID : String
  EmoticonID : String
deriving DecidableEq, Repr

structure MessagePart where
  Text : String
  Emoticon : Emoticon
deriving DecidableEq, Repr

/-- Type `Message`: a twitch chat comment to render. -/
structure Message where
  MessageBody : String
  UserColor : String
  ContentOffsetSeconds : ℚ
  CommenterDisplayName : String
  MessageFragmentsRaw : String
  MessageFragments : List MessagePart
deriving DecidableEq

/-- The index expression `cache[k]` with its `ok` flag. -/
def Cache.get : Cache → String → Option EmoticonData
  | [], _ => none
  | (k', v) :: rest, k => if k' = k then some v else Cache.get rest k

/-- The assignment `cache[k] = v`. -/
def Cache.set : Cache → String → EmoticonData → Cache
  | [], k, v => [(k, v)]
  | (k', v') :: rest, k, v => if k' = k then (k, v) :: rest else (k', v') :: Cache.set rest k v

structure EmoticonCache where
  cache : Cache
  spriteSheet : SpriteMap
deriving DecidableEq, Repr

/-- The URL built on line 100. -/
def emoticonURL (id : String) : String :=
  "https://static-cdn.jtvnw.net/emoticons/v1/" ++ id ++ "/1.0"

/-- The zero value of `pixel.Rect`, which a fresh `EmoticonData` has as `Bounds`. -/
def zeroRect : Rect := ⟨⟨0, 0⟩, ⟨0, 0⟩⟩

/-- The inner loop of lines 96-112 over the fragments of one comment.  The state is the cache
and the list of URLs `downloadImage` has been called with, oldest first; the log is returned
on every path. -/
def populateFragments (downloadImage : String → Except String Image) :
    List MessagePart → Cache → List String → Except String Cache × List String
  | [], cache, log => (.ok cache, log)
  | frag :: rest, cache, log =>
    if frag.Emoticon.EmoticonID ≠ "" then
      match cache.get frag.Emoticon.EmoticonID with
      | some _ => populateFragments downloadImage rest cache log
      | none =>
        let url := emoticonURL frag.Emoticon.EmoticonID
        match downloadImage url with
        | .error err => (.error err, log ++ [url])
        | .ok img =>
          populateFragments downloadImage rest
            (cache.set frag.Emoticon.EmoticonID
              { URL := url, Text := frag.Text, Img := img, Bounds := zeroRect })
            (log ++ [url])
    else
      populateFragments downloadImage rest cache log

/-- The outer loop of lines 95-113 over the comments. -/
def populate (downloadImage : String → Except String Image) :
    List Message → Cache → List String → Except String Cache × List String
  | [], cache, log => (.ok cache, log)
  | comment :: rest, cache, log =>
    match populateFragments downloadImage comment.MessageFragments cache log with
    | (.error err, log') => (.error err, log')
    | (.ok cache', log') => populate downloadImage rest cache' log'

/-- Function `NewEmoticonCache`, with the log of downloads as second component.  The field
`pixelSpriteSheet` is a conversion of `spriteSheet` and is not kept. -/
def NewEmoticonCache (downloadImage : String → Except String Image)
    (order : Nat → Cache → Cache) (fuel : Nat) (comments : List Message) :
    Option (Except String EmoticonCache) × List String :=
  match populate downloadImage comments [] [] with
  | (.error err, log) => (some (.error err), log)
  | (.ok cache, log) =>
    match generateSpriteSheet order fuel cache with
    | none => (none, log)
    | some (.error err) => (some (.error err), log)
    | some (.ok (spriteMap, cache')) =>
      (some (.ok { cache := cache', spriteSheet := spriteMap }), log)

def EmoticonCache.Length (e : EmoticonCache) : Nat :=
  e.cache.length

/-- Method `GetSprite`, reduced to the frame of the sprite it builds. -/
def EmoticonCache.GetSprite (e : EmoticonCache) (id : String) : Except String Rect :=
  match e.cache.get id with
  | none => .error ("Unable to find emote with id " ++ id)
  | some elem => .ok elem.Bounds

/-! ## The frame loop of `run` (`main.go`, lines 189-271) -/

/-- Function `strings.Split(s, " ")` on the characters of `s`. -/
def splitChars : List Char → List (List Char)
  | [] => [[]]
  | c :: cs =>
    match splitChars cs with
    | [] => [[c]]
    | w :: ws => if c = ' ' then [] :: w :: ws else (c :: w) :: ws

/-- Function `strings.Split(s, " ")`. -/
def stringsSplit (s : String) : List String :=
  (splitChars s.data).map String.mk

/-- What the loop body sends to the text object and the sprite batch. -/
inductive Op where
  /-- Call `txt.WriteString(s)`. -/
  | write (s : String)
  /-- Draw of the sprite of emoticon `id` at `txt.Dot`, followed by the move of `txt.Dot`
  to the right by `spriteWidth`. -/
  | sprite (id : String) (spriteWidth : ℚ)
deriving DecidableEq

/-- The values the layout reads from the configuration, the font atlas and the text object.
`boundsW s` is `txt.BoundsOf(s).W()`. -/
structure Layout where
  ChatBoundsW : ℚ
  LineHeight : ℚ
  boundsW : String → ℚ

/-- The variables of the layout of one comment, with the operations emitted so far. -/
structure LineState where
  lineString : String
  emoticonWidths : ℚ
  ops : List Op
deriving DecidableEq

/-- Lines 251-262: the words of a text fragment. -/
def layoutParts (L : Layout) : List String → LineState → LineState
  | [], s => s
  | part :: parts, s =>
    if L.boundsW (s.lineString ++ part) + s.emoticonWidths > L.ChatBoundsW then
      layoutParts L parts
        { ops := s.ops ++ [.write ("\n" ++ part ++ " ")]
          lineString := part ++ " "
          emoticonWidths := 0 }
    else
      layoutParts L parts
        { ops := s.ops ++ [.write (part ++ " ")]
          lineString := s.lineString ++ (part ++ " ")
          emoticonWidths := s.emoticonWidths }

/-- Lines 229-264: the fragments of a comment.  An error is the `panic(err)` of line 233. -/
def layoutFragments (L : Layout) (emoteCache : EmoticonCache) :
    List MessagePart → LineState → Except String LineState
  | [], s => .ok s
  | mes :: rest, s =>
    if mes.Emoticon.EmoticonID ≠ "" then
      match emoteCache.GetSprite mes.Emoticon.EmoticonID with
      | .error err => .error err
      | .ok frame =>
        let scale := L.LineHeight * (85 / 100) / -(frame.H : ℚ)
        let spriteWidth := (frame.W : ℚ) * scale
        let emoticonWidths := s.emoticonWidths + spriteWidth
        if L.boundsW s.lineString + emoticonWidths > L.ChatBoundsW then
          layoutFragments L emoteCache rest
            { ops := s.ops ++ [.write "\n", .sprite mes.Emoticon.EmoticonID spriteWidth]
              lineString := ""
              emoticonWidths := spriteWidth }
        else
          layoutFragments L emoteCache rest
            { ops := s.ops ++ [.sprite mes.Emoticon.EmoticonID spriteWidth]
              lineString := s.lineString
              emoticonWidths := emoticonWidths }
    else
      layoutFragments L emoteCache rest (layoutParts L (stringsSplit mes.Text) s)

/-- Lines 212-265: the layout of one comment, appended to the operations `ops` already
emitted.  The colour assignments are left out. -/
def layoutComment (L : Layout) (emoteCache : EmoticonCache) (comment : Message)
    (ops : List Op) : Except String (List Op) :=
  match layoutFragments L emoteCache comment.MessageFragments
      { ops := ops ++ [.write (comment.CommenterDisplayName ++ ":")]
        lineString := comment.CommenterDisplayName
        emoticonWidths := 0 } with
  | .error err => .error err
  | .ok s => .ok (s.ops ++ [.write "\n"])

/-- Membership of the pixel `(px, py)` in a rectangle, half-open as in `image.Point.In`. -/
def Rectangle.contains (r : Rectangle) (px py : Int) : Prop :=
  r.MinX ≤ px ∧ px < r.MaxX ∧ r.MinY ≤ py ∧ py < r.MaxY

/-- Two rectangles share no pixel. -/
def Rectangle.disjoint (r₁ r₂ : Rectangle) : Prop :=
  ∀ px py : Int, ¬ (r₁.contains px py ∧ r₂.contains px py)

/-- The rectangle lies inside `[0, S] × [0, S]`. -/
def Rectangle.within (r : Rectangle) (S : Int) : Prop :=
  0 ≤ r.MinX ∧ r.MaxX ≤ S ∧ 0 ≤ r.MinY ∧ r.MaxY ≤ S

/-- The atlas rectangle a recorded `Bounds` stands for in an atlas of height `H`: the Y flip
of line 74 undone. -/
def placedRect (H : Int) (e : String × EmoticonData) : Rectangle :=
  ⟨e.2.Bounds.Min.X, H - e.2.Bounds.Min.Y, e.2.Bounds.Max.X, H - e.2.Bounds.Max.Y⟩

/-- A cache entry without its `Bounds`: the fields the packer never writes. -/
def payload (e : String × EmoticonData) : String × String × String × Image :=
  (e.1, e.2.URL, e.2.Text, e.2.Img)

/-- Entry `e` and draw call `d` come from one execution of lines 70-74 at atlas height `H`:
the image was drawn at some `(x, y)` and the `Bounds` is that rectangle with Y flipped. -/
def recordedAt (H : Int) (e : String × EmoticonData) (d : DrawCall) : Prop :=
  d.key = e.1 ∧ d.src = e.2.Img ∧
  ∃ x y : Int,
    d.r = imageRect x y (x + e.2.Img.Dx) (y + e.2.Img.Dy) ∧
    e.2.Bounds = ⟨⟨x, H - y⟩, ⟨x + e.2.Img.Dx, H - (y + e.2.Img.Dy)⟩⟩

/-- Sum of the image widths of a cache, negative widths counted as zero. -/
def totalWidth (c : Cache) : Nat :=
  (c.map fun e => e.2.Img.Dx.toNat).sum

/-- The invariant of the scan that gives disjointness: the draws so far are pairwise
disjoint, and each lies above the current row or, in the current row, left of the scan
position and within the row height. -/
def ScanPre (s : FitState) : Prop :=
  s.spriteMap.draws.Pairwise (fun d₁ d₂ => d₁.r.disjoint d₂.r) ∧
  ∀ d ∈ s.spriteMap.draws, d.r.MaxY ≤ s.y ∨ (d.r.MaxX ≤ s.x ∧ d.r.MaxY ≤ s.y + s.maxY)

/-- The scan invariant after an image has been placed: the row height is then known to be
non-negative. -/
def ScanInv (s : FitState) : Prop :=
  ScanPre s ∧ (s.spriteMap.draws = [] ∨ 0 ≤ s.maxY)

/-! ## Specification vocabulary for the frame loop -/

/-- Every emoticon referenced by the comments has an entry in the cache, so that `GetSprite`
finds it. -/
def Covers (emoteCache : EmoticonCache) (comments : List Message) : Prop :=
  ∀ c ∈ comments, ∀ f ∈ c.MessageFragments,
    f.Emoticon.EmoticonID ≠ "" → emoteCache.cache.get f.Emoticon.EmoticonID ≠ none

/-- The keys of a cache, in list order. -/
def Cache.keys (c : Cache) : List String :=
  c.map Prod.fst

/-- The emoticon identifiers of all fragments of all comments, in transcript order, empty
ones and repetitions included. -/
def emoticonIDs (comments : List Message) : List String :=
  (comments.map fun c => c.MessageFragments.map fun f => f.Emoticon.EmoticonID).flatten

/-- The distinct non-empty emoticon identifiers of a transcript. -/
def distinctIDs (comments : List Message) : List String :=
  ((emoticonIDs comments).filter fun id => decide (id ≠ "")).dedup

/-! ## Sample data -/

/-- The enumeration that lists a map in the order of its entry list, in every pass. -/
def listOrder : Nat → Cache → Cache :=
  fun _ c => c

/-- A cache entry for an image of the given size, not yet packed. -/
def entry (k : String) (w h : Int) : String × EmoticonData :=
  (k, { URL := emoticonURL k, Text := k, Img := ⟨w, h⟩, Bounds := zeroRect })

/-- Three images of 200 by 200 pixels: they need a 512 by 512 atlas. -/
def threeSquares : Cache :=
  [entry "a" 200 200, entry "b" 200 200, entry "c" 200 200]

/-- A cache of `n` images of 28 by 28 pixels, the size of a standard emoticon, under the
keys `e`, `ee`, `eee`, … -/
def smallEmotes (n : Nat) : Cache :=
  (List.range n).map fun i => entry (String.mk (List.replicate (i + 1) 'e')) 28 28

/-- One image larger than the initial atlas in both directions. -/
def oneLarge : Cache :=
  [entry "a" 300 300]

/-- What the packer returns for `threeSquares`: a 512 by 512 atlas with two rows. -/
def threeSquaresSheet : SpriteMap × Cache :=
  (⟨⟨0, 0, 512, 512⟩,
    [⟨"a", ⟨0, 0, 200, 200⟩, ⟨200, 200⟩⟩, ⟨"b", ⟨200, 0, 400, 200⟩, ⟨200, 200⟩⟩,
     ⟨"c", ⟨0, 200, 200, 400⟩, ⟨200, 200⟩⟩]⟩,
   [("a", { URL := emoticonURL "a", Text := "a", Img := ⟨200, 200⟩,
            Bounds := ⟨⟨0, 512⟩, ⟨200, 312⟩⟩ }),
    ("b", { URL := emoticonURL "b", Text := "b", Img := ⟨200, 200⟩,
            Bounds := ⟨⟨200, 512⟩, ⟨400, 312⟩⟩ }),
    ("c", { URL := emoticonURL "c", Text := "c", Img := ⟨200, 200⟩,
            Bounds := ⟨⟨0, 312⟩, ⟨200, 112⟩⟩ })])

/-- A comment at time `t` by `name` with the given fragments. -/
def chat (t : ℚ) (name : String) (frags : List MessagePart) : Message :=
  { MessageBody := "", UserColor := "", ContentOffsetSeconds := t,
    CommenterDisplayName := name, MessageFragmentsRaw := "", MessageFragments := frags }

/-- A text fragment. -/
def textPart (s : String) : MessagePart :=
  ⟨s, ⟨"", ""⟩⟩

/-- An emoticon fragment. -/
def emotePart (id : String) : MessagePart :=
  ⟨id, ⟨"0", id⟩⟩

/-- A transcript in which emoticon `25` is used three times and emoticon `88` once. -/
def sampleChat : List Message :=
  [chat 1 "ann" [textPart "hi", emotePart "25", emotePart "25"],
   chat 3 "bob" [emotePart "88", textPart "", emotePart "25"]]

/-- A download that always answers with a 28 by 28 image. -/
def sampleDownload : String → Except String Image :=
  fun _ => .ok ⟨28, 28⟩

/-- The cache `NewEmoticonCache` builds for `sampleChat`. -/
def sampleEmotes : EmoticonCache :=
  { cache :=
      [("25", { URL := emoticonURL "25", Text := "25", Img := ⟨28, 28⟩,
                Bounds := ⟨⟨0, 256⟩, ⟨28, 228⟩⟩ }),
       ("88", { URL := emoticonURL "88", Text := "88", Img := ⟨28, 28⟩,
                Bounds := ⟨⟨28, 256⟩, ⟨56, 228⟩⟩ })]
    spriteSheet := ⟨⟨0, 0, 256, 256⟩,
      [⟨"25", ⟨0, 0, 28, 28⟩, ⟨28, 28⟩⟩, ⟨"88", ⟨28, 0, 56, 28⟩, ⟨28, 28⟩⟩]⟩ }

/-- A layout in which every character is one unit wide and the chat is four units wide. -/
def unitLayout : Layout :=
  { ChatBoundsW := 4, LineHeight := 1, boundsW := fun s => (s.length : ℚ) }

theorem imageRect_of_le {x0 y0 x1 y1 : Int} (hx : x0 ≤ x1) (hy : y0 ≤ y1) :
    imageRect x0 y0 x1 y1 = ⟨x0, y0, x1, y1⟩ := by
  simp [imageRect, not_lt.mpr hx, not_lt.mpr hy]

theorem fitLoop_nil (W H : Int) (s : FitState) : fitLoop W H [] s = s := rfl

theorem fitLoop_cons (W H : Int) (k : String) (v : EmoticonData)
    (rest : List (String × EmoticonData)) (s : FitState) :
    fitLoop W H ((k, v) :: rest) s =
      if s.x + v.Img.Dx > W then
        if s.y + s.maxY ≥ H then
          { s with x := 0, y := s.y + s.maxY, maxY := -1, fit := false,
                   cache := s.cache ++ (k, v) :: rest }
        else
          fitLoop W H rest (place H k v { s with x := 0, y := s.y + s.maxY, maxY := -1 })
      else
        fitLoop W H rest (place H k v s) := rfl

/-- A pass never touches anything but the `Bounds` of the entries, and keeps them in the
order of enumeration. -/
theorem fitLoop_payload (W H : Int) (es : List (String × EmoticonData)) (s : FitState) :
    (fitLoop W H es s).cache.map payload = (s.cache ++ es).map payload := by
  induction es generalizing s with
  | nil => simp [fitLoop_nil]
  | cons e rest ih =>
    obtain ⟨k, v⟩ := e
    rw [fitLoop_cons]
    split
    · split
      · rfl
      · rw [ih]; simp [place, payload]
    · rw [ih]; simp [place, payload]

theorem fitLoop_bounds (W H : Int) (es : List (String × EmoticonData)) (s : FitState) :
    (fitLoop W H es s).spriteMap.bounds = s.spriteMap.bounds := by
  induction es generalizing s with
  | nil => rfl
  | cons e rest ih =>
    obtain ⟨k, v⟩ := e
    rw [fitLoop_cons]
    split
    · split
      · rfl
      · rw [ih]; rfl
    · rw [ih]; rfl

/-- When the atlas is at least as wide as all images side by side, a pass never wraps and so
never gives up. -/
theorem fitLoop_fit_of_wide (W H : Int) (es : List (String × EmoticonData)) (s : FitState)
    (hfit : s.fit = true) (hw : s.x + (totalWidth es : Int) ≤ W) :
    (fitLoop W H es s).fit = true := by
  induction es generalizing s with
  | nil => simpa [fitLoop_nil] using hfit
  | cons e rest ih =>
    obtain ⟨k, v⟩ := e
    have hsum : totalWidth ((k, v) :: rest) = v.Img.Dx.toNat + totalWidth rest := by
      simp [totalWidth]
    have hle : v.Img.Dx ≤ (v.Img.Dx.toNat : Int) := Int.self_le_toNat _
    rw [hsum] at hw
    push_cast at hw
    have hno : ¬ (s.x + v.Img.Dx > W) := by
      have : (0 : Int) ≤ (totalWidth rest : Int) := Int.ofNat_nonneg _
      omega
    rw [fitLoop_cons, if_neg hno]
    apply ih
    · simpa [place] using hfit
    · show s.x + v.Img.Dx + (totalWidth rest : Int) ≤ W
      omega

/-- A pass that ends with `fit` still set has run lines 70-74 for every entry. -/
theorem fitLoop_recorded (W H : Int) (es : List (String × EmoticonData)) (s : FitState)
    (hfit : (fitLoop W H es s).fit = true)
    (h : List.Forall₂ (recordedAt H) s.cache s.spriteMap.draws) :
    List.Forall₂ (recordedAt H) (fitLoop W H es s).cache (fitLoop W H es s).spriteMap.draws := by
  induction es generalizing s with
  | nil => simpa [fitLoop_nil] using h
  | cons e rest ih =>
    obtain ⟨k, v⟩ := e
    have hplace : ∀ t : FitState, List.Forall₂ (recordedAt H) t.cache t.spriteMap.draws →
        List.Forall₂ (recordedAt H) (place H k v t).cache (place H k v t).spriteMap.draws := by
      intro t ht
      refine List.rel_append ht (List.Forall₂.cons ?_ List.Forall₂.nil)
      exact ⟨rfl, rfl, t.x, t.y, rfl, rfl⟩
    rw [fitLoop_cons] at hfit ⊢
    split at hfit
    · split at hfit
      · simp at hfit
      · rename_i h1 h2
        rw [if_pos h1, if_neg h2]
        exact ih _ hfit (hplace _ h)
    · rename_i h1
      rw [if_neg h1]
      exact ih _ hfit (hplace _ h)

theorem ScanPre_wrap (s : FitState) (h : ScanInv s) :
    ScanPre { s with x := 0, y := s.y + s.maxY, maxY := -1 } := by
  obtain ⟨⟨hp, hr⟩, hm⟩ := h
  refine ⟨hp, ?_⟩
  intro d hd
  left
  have hne : 0 ≤ s.maxY := by
    rcases hm with hm | hm
    · rw [hm] at hd; cases hd
    · exact hm
  show d.r.MaxY ≤ s.y + s.maxY
  rcases hr d hd with h1 | ⟨_, h2⟩
  · omega
  · exact h2

theorem ScanInv_place (H : Int) (k : String) (v : EmoticonData) (s : FitState)
    (hx : 0 ≤ v.Img.Dx) (hy : 0 ≤ v.Img.Dy) (h : ScanPre s) :
    ScanInv (place H k v s) := by
  obtain ⟨hp, hr⟩ := h
  have hrect : imageRect s.x s.y (s.x + v.Img.Dx) (s.y + v.Img.Dy)
      = ⟨s.x, s.y, s.x + v.Img.Dx, s.y + v.Img.Dy⟩ :=
    imageRect_of_le (by omega) (by omega)
  have hmax : v.Img.Dy ≤ (if v.Img.Dy > s.maxY then v.Img.Dy else s.maxY) ∧
      s.maxY ≤ (if v.Img.Dy > s.maxY then v.Img.Dy else s.maxY) := by
    split <;> constructor <;> omega
  refine ⟨⟨?_, ?_⟩, ?_⟩
  · show List.Pairwise _ (s.spriteMap.draws ++ [_])
    rw [List.pairwise_append]
    refine ⟨hp, List.pairwise_singleton _ _, ?_⟩
    intro d hd d' hd'
    rw [List.mem_singleton] at hd'
    subst hd'
    intro px py ⟨⟨_, hc2, _, hc4⟩, hc'⟩
    rw [hrect] at hc'
    obtain ⟨hn1, _, hn3, _⟩ := hc'
    simp only at hn1 hn3
    rcases hr d hd with h1 | ⟨h1, _⟩ <;> omega
  · intro d hd
    change d ∈ s.spriteMap.draws ++ [_] at hd
    rw [List.mem_append, List.mem_singleton] at hd
    show d.r.MaxY ≤ s.y ∨ (d.r.MaxX ≤ s.x + v.Img.Dx ∧
      d.r.MaxY ≤ s.y + (if v.Img.Dy > s.maxY then v.Img.Dy else s.maxY))
    rcases hd with hd | hd
    · rcases hr d hd with h1 | ⟨h1, h2⟩
      · exact Or.inl h1
      · right; constructor <;> omega
    · subst hd
      right
      rw [hrect]
      constructor <;> simp only <;> omega
  · right
    show 0 ≤ (if v.Img.Dy > s.maxY then v.Img.Dy else s.maxY)
    omega

/-- With images of non-negative size, the rectangles drawn by a pass are pairwise disjoint,
whether the pass succeeds or gives up. -/
theorem fitLoop_pairwise (W H : Int) (es : List (String × EmoticonData)) (s : FitState)
    (hdims : ∀ e ∈ es, 0 ≤ e.2.Img.Dx ∧ 0 ≤ e.2.Img.Dy) (h : ScanInv s) :
    (fitLoop W H es s).spriteMap.draws.Pairwise (fun d₁ d₂ => d₁.r.disjoint d₂.r) := by
  induction es generalizing s with
  | nil => exact h.1.1
  | cons e rest ih =>
    obtain ⟨k, v⟩ := e
    have hv := hdims (k, v) (List.mem_cons_self _ _)
    have hrest : ∀ e ∈ rest, 0 ≤ e.2.Img.Dx ∧ 0 ≤ e.2.Img.Dy :=
      fun e he => hdims e (List.mem_cons_of_mem _ he)
    rw [fitLoop_cons]
    split
    · split
      · exact h.1.1
      · exact ih _ hrest (ScanInv_place H k v _ hv.1 hv.2 (ScanPre_wrap s h))
    · exact ih _ hrest (ScanInv_place H k v _ hv.1 hv.2 h.1)

theorem ScanInv_initFit (W H : Int) : ScanInv (initFit W H) :=
  ⟨⟨List.Pairwise.nil, fun _ hd => by cases hd⟩, Or.inl rfl⟩

/-- For images of non-negative size, the rectangle read back from a recorded `Bounds` is the
rectangle that was drawn. -/
theorem placedRect_of_recordedAt (H : Int) (e : String × EmoticonData) (d : DrawCall)
    (hx : 0 ≤ e.2.Img.Dx) (hy : 0 ≤ e.2.Img.Dy) (h : recordedAt H e d) :
    placedRect H e = d.r := by
  obtain ⟨_, _, x, y, hr, hb⟩ := h
  rw [hr, imageRect_of_le (by omega) (by omega)]
  simp only [placedRect, hb]
  congr 1 <;> omega

/-! ## Lemmas on the resize loop -/

theorem sheetLoop_zero (order : Nat → Cache → Cache) (pass : Nat) (cache : Cache) (W H : Int) :
    sheetLoop order 0 pass cache W H false = none := rfl

theorem sheetLoop_succ (order : Nat → Cache → Cache) (fuel pass : Nat) (cache : Cache)
    (W H : Int) :
    sheetLoop order (fuel + 1) pass cache W H false =
      if (fitLoop W H (order pass cache) (initFit W H)).fit = true then
        some (.ok ((fitLoop W H (order pass cache) (initFit W H)).spriteMap,
                   (fitLoop W H (order pass cache) (initFit W H)).cache))
      else
        sheetLoop order fuel (pass + 1) (fitLoop W H (order pass cache) (initFit W H)).cache
          (W * 2) (H * 2) (fitLoop W H (order pass cache) (initFit W H)).fit := rfl

theorem payload_pass (order : Nat → Cache → Cache) (horder : ∀ n c, (order n c).Perm c)
    (pass : Nat) (cache : Cache) (W H : Int) :
    ((fitLoop W H (order pass cache) (initFit W H)).cache.map payload).Perm
      (cache.map payload) := by
  rw [fitLoop_payload]
  simpa [initFit] using (horder pass cache).map payload

theorem totalWidth_eq_of_payload {c₁ c₂ : Cache}
    (h : (c₁.map payload).Perm (c₂.map payload)) : totalWidth c₁ = totalWidth c₂ := by
  have key : ∀ c : Cache, totalWidth c = ((c.map payload).map fun p => p.2.2.2.Dx.toNat).sum := by
    intro c
    simp [totalWidth, payload, Function.comp_def]
  rw [key, key]
  exact (h.map _).sum_eq

/-- What a successful run of the resize loop returns is the outcome of one complete pass, at
the size reached after `j` doublings, over the entries of the cache given. -/
theorem sheetLoop_ok (order : Nat → Cache → Cache) (horder : ∀ n c, (order n c).Perm c)
    (fuel pass : Nat) (cache : Cache) (W H : Int) (m : SpriteMap) (out : Cache)
    (h : sheetLoop order fuel pass cache W H false = some (.ok (m, out))) :
    ∃ (j : Nat) (entries : Cache), (entries.map payload).Perm (cache.map payload) ∧
      (fitLoop (W * 2 ^ j) (H * 2 ^ j) entries (initFit (W * 2 ^ j) (H * 2 ^ j))).fit = true ∧
      (fitLoop (W * 2 ^ j) (H * 2 ^ j) entries (initFit (W * 2 ^ j) (H * 2 ^ j))).spriteMap = m ∧
      (fitLoop (W * 2 ^ j) (H * 2 ^ j) entries (initFit (W * 2 ^ j) (H * 2 ^ j))).cache = out := by
  induction fuel generalizing pass cache W H with
  | zero => rw [sheetLoop_zero] at h; cases h
  | succ fuel ih =>
    rw [sheetLoop_succ] at h
    split at h
    · rename_i hfit
      simp only [Option.some.injEq, Except.ok.injEq, Prod.mk.injEq] at h
      refine ⟨0, order pass cache, (horder pass cache).map payload, ?_, ?_, ?_⟩
      · simpa using hfit
      · simpa using h.1
      · simpa using h.2
    · rename_i hfit
      have hf : (fitLoop W H (order pass cache) (initFit W H)).fit = false := by
        simpa using hfit
      rw [hf] at h
      obtain ⟨j, entries, hperm, h1, h2, h3⟩ := ih _ _ _ _ h
      refine ⟨j + 1, entries, hperm.trans (payload_pass order horder pass cache W H), ?_, ?_, ?_⟩
      · rw [pow_succ']; simpa [mul_assoc] using h1
      · rw [pow_succ']; simpa [mul_assoc] using h2
      · rw [pow_succ']; simpa [mul_assoc] using h3

/-- The resize loop stops: with `totalWidth cache ≤ W + n` it runs at most `n` passes that give
up, then one that succeeds. -/
theorem sheetLoop_terminates (order : Nat → Cache → Cache)
    (horder : ∀ n c, (order n c).Perm c) (n : Nat) :
    ∀ (pass : Nat) (cache : Cache) (W H : Int), 1 ≤ W → (totalWidth cache : Int) ≤ W + n →
    ∃ (k : Nat) (m : SpriteMap) (out : Cache),
      (∀ fuel, fuel ≤ k → sheetLoop order fuel pass cache W H false = none) ∧
      (∀ fuel, k < fuel → sheetLoop order fuel pass cache W H false = some (.ok (m, out))) ∧
      m.bounds = imageRect 0 0 (W * 2 ^ k) (H * 2 ^ k) ∧
      ((fitLoop W H (order pass cache) (initFit W H)).fit = true →
        k = 0 ∧ m = (fitLoop W H (order pass cache) (initFit W H)).spriteMap ∧
        out = (fitLoop W H (order pass cache) (initFit W H)).cache) := by
  have hdone : ∀ (pass : Nat) (cache : Cache) (W H : Int),
      (fitLoop W H (order pass cache) (initFit W H)).fit = true →
      ∃ (k : Nat) (m : SpriteMap) (out : Cache),
        (∀ fuel, fuel ≤ k → sheetLoop order fuel pass cache W H false = none) ∧
        (∀ fuel, k < fuel → sheetLoop order fuel pass cache W H false = some (.ok (m, out))) ∧
        m.bounds = imageRect 0 0 (W * 2 ^ k) (H * 2 ^ k) ∧
        ((fitLoop W H (order pass cache) (initFit W H)).fit = true →
          k = 0 ∧ m = (fitLoop W H (order pass cache) (initFit W H)).spriteMap ∧
          out = (fitLoop W H (order pass cache) (initFit W H)).cache) := by
    intro pass cache W H hfit
    refine ⟨0, _, _, ?_, ?_, ?_, fun _ => ⟨rfl, rfl, rfl⟩⟩
    · intro fuel hfuel
      obtain rfl : fuel = 0 := by omega
      exact sheetLoop_zero ..
    · intro fuel hfuel
      obtain ⟨f, rfl⟩ : ∃ f, fuel = f + 1 := ⟨fuel - 1, by omega⟩
      rw [sheetLoop_succ, if_pos hfit]
    · rw [fitLoop_bounds]; simp [initFit]
  induction n with
  | zero =>
    intro pass cache W H _ hw
    apply hdone
    apply fitLoop_fit_of_wide _ _ _ _ rfl
    rw [totalWidth_eq_of_payload ((horder pass cache).map payload)]
    simpa [initFit] using hw
  | succ n ih =>
    intro pass cache W H hW hw
    by_cases hfit : (fitLoop W H (order pass cache) (initFit W H)).fit = true
    · exact hdone pass cache W H hfit
    · have hf : (fitLoop W H (order pass cache) (initFit W H)).fit = false := by
        simpa using hfit
      have hw' : (totalWidth (fitLoop W H (order pass cache) (initFit W H)).cache : Int)
          ≤ W * 2 + n := by
        rw [totalWidth_eq_of_payload (payload_pass order horder pass cache W H)]
        push_cast at hw
        omega
      obtain ⟨k, m, out, hnone, hsome, hb, _⟩ := ih (pass + 1) _ (W * 2) (H * 2) (by omega) hw'
      refine ⟨k + 1, m, out, ?_, ?_, ?_, fun h => absurd h hfit⟩
      · intro fuel hfuel
        cases fuel with
        | zero => exact sheetLoop_zero ..
        | succ f =>
          rw [sheetLoop_succ, if_neg hfit, hf]
          exact hnone f (by omega)
      · intro fuel hfuel
        obtain ⟨f, rfl⟩ : ∃ f, fuel = f + 1 := ⟨fuel - 1, by omega⟩
        rw [sheetLoop_succ, if_neg hfit, hf]
        exact hsome f (by omega)
      · rw [hb, pow_succ']; simp [mul_assoc]

/-- The resize loop never leaves through the `return` of line 88. -/
theorem sheetLoop_ne_error (order : Nat → Cache → Cache) (fuel pass : Nat) (cache : Cache)
    (W H : Int) (msg : String) :
    sheetLoop order fuel pass cache W H false ≠ some (.error msg) := by
  induction fuel generalizing pass cache W H with
  | zero => rw [sheetLoop_zero]; simp
  | succ fuel ih =>
    rw [sheetLoop_succ]
    split
    · simp
    · rename_i hfit
      have hf : (fitLoop W H (order pass cache) (initFit W H)).fit = false := by
        simpa using hfit
      rw [hf]
      exact ih _ _ _ _

/-! ## Lemmas on the frame loop -/

theorem Cache.get_eq_none_iff (c : Cache) (k : String) : c.get k = none ↔ k ∉ c.keys := by
  induction c with
  | nil => simp [Cache.get, Cache.keys]
  | cons e rest ih =>
    obtain ⟨k', v⟩ := e
    by_cases h : k' = k
    · simp [Cache.get, Cache.keys, h]
    · have h' : ¬ k = k' := fun hk => h hk.symm
      simpa [Cache.get, Cache.keys, h, h'] using ih

theorem Cache.set_of_get_none (c : Cache) (k : String) (v : EmoticonData)
    (h : c.get k = none) : c.set k v = c ++ [(k, v)] := by
  induction c with
  | nil => rfl
  | cons e rest ih =>
    obtain ⟨k', v'⟩ := e
    by_cases hk : k' = k
    · simp [Cache.get, hk] at h
    · simp only [Cache.get, hk, if_false] at h
      simp [Cache.set, hk, ih h]

theorem emoticonURL_injective : Function.Injective emoticonURL := by
  intro a b h
  have hd := congrArg String.data h
  simp only [emoticonURL, String.data_append] at hd
  have h1 := List.append_cancel_right hd
  have h2 := List.append_cancel_left h1
  exact String.ext h2

/-- The fragment loop, when every download succeeds: the log stays the list of URLs of the
keys, the keys stay distinct, and the keys gained are the non-empty identifiers of the
fragments. -/
theorem populateFragments_spec (downloadImage : String → Except String Image)
    (frags : List MessagePart) (cache : Cache)
    (hfetch : ∀ f ∈ frags, f.Emoticon.EmoticonID ≠ "" →
      ∃ img, downloadImage (emoticonURL f.Emoticon.EmoticonID) = .ok img)
    (hnodup : cache.keys.Nodup) :
    ∃ cache', populateFragments downloadImage frags cache (cache.keys.map emoticonURL) =
        (.ok cache', cache'.keys.map emoticonURL) ∧
      cache'.keys.Nodup ∧
      ∀ id, id ∈ cache'.keys ↔
        id ∈ cache.keys ∨ (id ≠ "" ∧ id ∈ frags.map fun f => f.Emoticon.EmoticonID) := by
  induction frags generalizing cache with
  | nil => exact ⟨cache, rfl, hnodup, by simp⟩
  | cons frag rest ih =>
    have hrest : ∀ f ∈ rest, f.Emoticon.EmoticonID ≠ "" →
        ∃ img, downloadImage (emoticonURL f.Emoticon.EmoticonID) = .ok img :=
      fun f hf => hfetch f (List.mem_cons_of_mem _ hf)
    unfold populateFragments
    by_cases hid : frag.Emoticon.EmoticonID ≠ ""
    · rw [if_pos hid]
      cases hget : cache.get frag.Emoticon.EmoticonID with
      | some v =>
        obtain ⟨cache', h1, h2, h3⟩ := ih cache hrest hnodup
        refine ⟨cache', h1, h2, ?_⟩
        intro id
        rw [h3 id, List.map_cons, List.mem_cons]
        have hmem : frag.Emoticon.EmoticonID ∈ cache.keys := by
          by_contra hc
          rw [(Cache.get_eq_none_iff _ _).mpr hc] at hget
          cases hget
        constructor
        · rintro (h | ⟨h, h'⟩)
          · exact Or.inl h
          · exact Or.inr ⟨h, Or.inr h'⟩
        · rintro (h | ⟨h, rfl | h'⟩)
          · exact Or.inl h
          · exact Or.inl hmem
          · exact Or.inr ⟨h, h'⟩
      | none =>
        obtain ⟨img, himg⟩ := hfetch frag (List.mem_cons_self _ _) hid
        have hnot : frag.Emoticon.EmoticonID ∉ cache.keys := (Cache.get_eq_none_iff _ _).mp hget
        simp only [himg, Cache.set_of_get_none _ _ _ hget]
        have hkeys : ∀ v : EmoticonData,
            Cache.keys (cache ++ [(frag.Emoticon.EmoticonID, v)])
              = cache.keys ++ [frag.Emoticon.EmoticonID] := by
          intro v; simp [Cache.keys]
        have hnodup' : ∀ v : EmoticonData,
            (Cache.keys (cache ++ [(frag.Emoticon.EmoticonID, v)])).Nodup := by
          intro v
          rw [hkeys]
          exact List.Nodup.append hnodup (List.nodup_singleton _)
            (by
              intro a ha hb
              rw [List.mem_singleton] at hb
              exact hnot (hb ▸ ha))
        obtain ⟨cache', h1, h2, h3⟩ := ih _ hrest (hnodup' _)
        rw [hkeys, List.map_append, List.map_singleton] at h1
        refine ⟨cache', h1, h2, ?_⟩
        intro id
        rw [h3 id, hkeys, List.mem_append, List.mem_singleton, List.map_cons, List.mem_cons]
        constructor
        · rintro ((h | rfl) | ⟨h, h'⟩)
          · exact Or.inl h
          · exact Or.inr ⟨hid, Or.inl rfl⟩
          · exact Or.inr ⟨h, Or.inr h'⟩
        · rintro (h | ⟨h, rfl | h'⟩)
          · exact Or.inl (Or.inl h)
          · exact Or.inl (Or.inr rfl)
          · exact Or.inr ⟨h, h'⟩
    · rw [if_neg hid]
      obtain ⟨cache', h1, h2, h3⟩ := ih cache hrest hnodup
      refine ⟨cache', h1, h2, ?_⟩
      intro id
      rw [h3 id, List.map_cons, List.mem_cons]
      have hempty : frag.Emoticon.EmoticonID = "" := not_not.mp hid
      constructor
      · rintro (h | ⟨h, h'⟩)
        · exact Or.inl h
        · exact Or.inr ⟨h, Or.inr h'⟩
      · rintro (h | ⟨h, rfl | h'⟩)
        · exact Or.inl h
        · exact absurd hempty h
        · exact Or.inr ⟨h, h'⟩

theorem populate_spec (downloadImage : String → Except String Image)
    (comments : List Message) (cache : Cache)
    (hfetch : ∀ id ∈ emoticonIDs comments, id ≠ "" →
      ∃ img, downloadImage (emoticonURL id) = .ok img)
    (hnodup : cache.keys.Nodup) :
    ∃ cache', populate downloadImage comments cache (cache.keys.map emoticonURL) =
        (.ok cache', cache'.keys.map emoticonURL) ∧
      cache'.keys.Nodup ∧
      ∀ id, id ∈ cache'.keys ↔ id ∈ cache.keys ∨ (id ≠ "" ∧ id ∈ emoticonIDs comments) := by
  induction comments generalizing cache with
  | nil => exact ⟨cache, rfl, hnodup, by simp [emoticonIDs]⟩
  | cons c rest ih =>
    have hids : emoticonIDs (c :: rest) =
        (c.MessageFragments.map fun f => f.Emoticon.EmoticonID) ++ emoticonIDs rest := by
      simp [emoticonIDs]
    have hc : ∀ f ∈ c.MessageFragments, f.Emoticon.EmoticonID ≠ "" →
        ∃ img, downloadImage (emoticonURL f.Emoticon.EmoticonID) = .ok img := by
      intro f hf hne
      apply hfetch _ _ hne
      rw [hids]
      exact List.mem_append_left _ (List.mem_map_of_mem _ hf)
    have hrest : ∀ id ∈ emoticonIDs rest, id ≠ "" →
        ∃ img, downloadImage (emoticonURL id) = .ok img := by
      intro id hid hne
      apply hfetch _ _ hne
      rw [hids]
      exact List.mem_append_right _ hid
    obtain ⟨cache₁, h1, h2, h3⟩ :=
      populateFragments_spec downloadImage c.MessageFragments cache hc hnodup
    obtain ⟨cache₂, h4, h5, h6⟩ := ih cache₁ hrest h2
    refine ⟨cache₂, ?_, h5, ?_⟩
    · simp only [populate, h1, h4]
    · intro id
      rw [h6 id, h3 id, hids, List.mem_append]
      tauto

theorem keys_perm_of_payload {c₁ c₂ : Cache}
    (h : (c₁.map payload).Perm (c₂.map payload)) : c₁.keys.Perm c₂.keys := by
  have key : ∀ c : Cache, c.keys = (c.map payload).map fun p => p.1 := by
    intro c
    simp [Cache.keys, payload, Function.comp_def]
  rw [key, key]
  exact h.map _

/-- Whenever the fragment loop ends without error, the cache has a key for every key it
had and for every non-empty identifier of the fragments. -/
theorem populateFragments_keys (downloadImage : String → Except String Image)
    (frags : List MessagePart) (cache cache' : Cache) (log log' : List String)
    (h : populateFragments downloadImage frags cache log = (.ok cache', log')) :
    ∀ id, (id ∈ cache.keys ∨ (id ≠ "" ∧ id ∈ frags.map fun f => f.Emoticon.EmoticonID)) →
      id ∈ cache'.keys := by
  induction frags generalizing cache log with
  | nil =>
    simp only [populateFragments, Prod.mk.injEq, Except.ok.injEq] at h
    intro id hid
    rw [← h.1]
    simpa using hid
  | cons frag rest ih =>
    unfold populateFragments at h
    intro id hid
    by_cases hne : frag.Emoticon.EmoticonID ≠ ""
    · rw [if_pos hne] at h
      cases hget : cache.get frag.Emoticon.EmoticonID with
      | some v =>
        rw [hget] at h
        apply ih cache log h
        have hmem : frag.Emoticon.EmoticonID ∈ cache.keys := by
          by_contra hc
          rw [(Cache.get_eq_none_iff _ _).mpr hc] at hget
          cases hget
        rcases hid with hid | ⟨h1, h2⟩
        · exact Or.inl hid
        · rcases List.mem_cons.mp h2 with rfl | h2
          · exact Or.inl hmem
          · exact Or.inr ⟨h1, h2⟩
      | none =>
        rw [hget] at h
        cases hdl : downloadImage (emoticonURL frag.Emoticon.EmoticonID) with
        | error err => simp [hdl] at h
        | ok img =>
          simp only [hdl, Cache.set_of_get_none _ _ _ hget] at h
          apply ih _ _ h
          rcases hid with hid | ⟨h1, h2⟩
          · exact Or.inl (by simp [Cache.keys] at hid ⊢; exact Or.inl hid)
          · rcases List.mem_cons.mp h2 with rfl | h2
            · exact Or.inl (by simp [Cache.keys])
            · exact Or.inr ⟨h1, h2⟩
    · rw [if_neg hne] at h
      apply ih cache log h
      rcases hid with hid | ⟨h1, h2⟩
      · exact Or.inl hid
      · rcases List.mem_cons.mp h2 with rfl | h2
        · exact absurd h1 hne
        · exact Or.inr ⟨h1, h2⟩

theorem populate_keys (downloadImage : String → Except String Image)
    (comments : List Message) (cache cache' : Cache) (log log' : List String)
    (h : populate downloadImage comments cache log = (.ok cache', log')) :
    ∀ id, (id ∈ cache.keys ∨ (id ≠ "" ∧ id ∈ emoticonIDs comments)) → id ∈ cache'.keys := by
  induction comments generalizing cache log with
  | nil =>
    simp only [populate, Prod.mk.injEq, Except.ok.injEq] at h
    intro id hid
    rw [← h.1]
    simpa [emoticonIDs] using hid
  | cons c rest ih =>
    have hids : emoticonIDs (c :: rest) =
        (c.MessageFragments.map fun f => f.Emoticon.EmoticonID) ++ emoticonIDs rest := by
      simp [emoticonIDs]
    unfold populate at h
    rcases hp : populateFragments downloadImage c.MessageFragments cache log with ⟨r, log₁⟩
    rw [hp] at h
    cases r with
    | error err => simp at h
    | ok cache₁ =>
      simp only at h
      intro id hid
      apply ih cache₁ log₁ h
      rw [hids, List.mem_append] at hid
      rcases hid with hid | ⟨h1, h2 | h2⟩
      · exact Or.inl (populateFragments_keys _ _ _ _ _ _ hp id (Or.inl hid))
      · exact Or.inl (populateFragments_keys _ _ _ _ _ _ hp id (Or.inr ⟨h1, h2⟩))
      · exact Or.inr ⟨h1, h2⟩

/-! ## The packer: containment, disjointness, termination, recorded bounds -/

theorem map_placedRect_of_recorded (H : Int) (out : Cache) (draws : List DrawCall)
    (h : List.Forall₂ (recordedAt H) out draws)
    (hdims : ∀ e ∈ out, 0 ≤ e.2.Img.Dx ∧ 0 ≤ e.2.Img.Dy) :
    out.map (placedRect H) = draws.map (fun d => d.r) := by
  induction h with
  | nil => rfl
  | @cons e d es ds hed _ ih =>
    have he := hdims e (List.mem_cons_self _ _)
    rw [List.map_cons, List.map_cons, placedRect_of_recordedAt H e d he.1 he.2 hed,
      ih (fun e' he' => hdims e' (List.mem_cons_of_mem _ he'))]

theorem dims_of_payload_perm {c₁ c₂ : Cache}
    (h : (c₁.map payload).Perm (c₂.map payload))
    (hdims : ∀ e ∈ c₂, 0 ≤ e.2.Img.Dx ∧ 0 ≤ e.2.Img.Dy) :
    ∀ e ∈ c₁, 0 ≤ e.2.Img.Dx ∧ 0 ≤ e.2.Img.Dy := by
  intro e he
  have hmem : payload e ∈ c₂.map payload := h.subset (List.mem_map_of_mem _ he)
  obtain ⟨e', he', hpe⟩ := List.mem_map.mp hmem
  have himg : e'.2.Img = e.2.Img := by
    have := congrArg (fun p => p.2.2.2) hpe
    simpa [payload] using this
  rw [← himg]
  exact hdims e' he'

theorem forall₂_exists_right {α β : Type} {R : α → β → Prop} {l₁ : List α} {l₂ : List β}
    (h : List.Forall₂ R l₁ l₂) : ∀ a ∈ l₁, ∃ b, b ∈ l₂ ∧ R a b := by
  induction h with
  | nil => intro a ha; cases ha
  | @cons x y xs ys hxy _ ih =>
    intro a ha
    rcases List.mem_cons.mp ha with rfl | hmem
    · exact ⟨y, List.mem_cons_self _ _, hxy⟩
    · obtain ⟨b, hb, hab⟩ := ih a hmem
      exact ⟨b, List.mem_cons_of_mem _ hb, hab⟩

theorem initFit_bounds (S : Int) (hS : 0 ≤ S) :
    (initFit S S).spriteMap.bounds = ⟨0, 0, S, S⟩ := by
  simp [initFit, imageRect_of_le hS hS]

/-- The outcome of `generateSpriteSheet` is the outcome of one complete pass at the final
size over the entries of the cache. -/
theorem generateSpriteSheet_final_pass (order : Nat → Cache → Cache)
    (horder : ∀ n c, (order n c).Perm c) (fuel : Nat) (cache : Cache)
    (m : SpriteMap) (out : Cache)
    (hres : generateSpriteSheet order fuel cache = some (.ok (m, out))) :
    ∃ (j : Nat) (entries : Cache) (s : FitState),
      s = fitLoop (256 * 2 ^ j) (256 * 2 ^ j) entries (initFit (256 * 2 ^ j) (256 * 2 ^ j)) ∧
      (entries.map payload).Perm (cache.map payload) ∧
      s.fit = true ∧ s.spriteMap = m ∧ s.cache = out ∧
      m.bounds = ⟨0, 0, 256 * 2 ^ j, 256 * 2 ^ j⟩ := by
  obtain ⟨j, entries, hperm, hfit, hm, hout⟩ :=
    sheetLoop_ok order horder fuel 0 cache 256 256 m out hres
  refine ⟨j, entries, _, rfl, hperm, hfit, hm, hout, ?_⟩
  rw [← hm, fitLoop_bounds]
  exact initFit_bounds _ (by positivity)

/-- The resize loop of `generateSpriteSheet` runs `k` passes that give up and one that
succeeds, and returns the square atlas of side `256 * 2 ^ k`. -/
theorem generateSpriteSheet_runs (order : Nat → Cache → Cache) (cache : Cache)
    (horder : ∀ n c, (order n c).Perm c) :
    ∃ (k : Nat) (m : SpriteMap) (out : Cache),
      (∀ fuel, fuel ≤ k → generateSpriteSheet order fuel cache = none) ∧
      (∀ fuel, k < fuel → generateSpriteSheet order fuel cache = some (.ok (m, out))) ∧
      (∀ fuel msg, generateSpriteSheet order fuel cache ≠ some (.error msg)) ∧
      m.bounds = ⟨0, 0, 256 * 2 ^ k, 256 * 2 ^ k⟩ ∧
      (cache = [] → k = 0 ∧ m = ⟨⟨0, 0, 256, 256⟩, []⟩ ∧ out = []) := by
  obtain ⟨k, m, out, hnone, hsome, hb, hfirst⟩ :=
    sheetLoop_terminates order horder (totalWidth cache) 0 cache 256 256 (by decide)
      (by omega)
  refine ⟨k, m, out, hnone, hsome, ?_, ?_, ?_⟩
  · intro fuel msg
    exact sheetLoop_ne_error order fuel 0 cache 256 256 msg
  · rw [hb]
    exact imageRect_of_le (by positivity) (by positivity)
  · intro hc
    subst hc
    have hnil : order 0 [] = [] := (horder 0 []).eq_nil
    rw [hnil] at hfirst
    obtain ⟨h1, h2, h3⟩ := hfirst rfl
    exact ⟨h1, by rw [h2]; decide, by rw [h3]; rfl⟩


/-- C1, at the failing input: for a single image of 300 by 300 pixels the packer returns
the 256 by 256 atlas of the first pass, with the image drawn at `(0, -1)`-`(300, 299)`,
a rectangle that is not inside the atlas; the atlas has not grown to the image size.
Likewise for 82 images of 28 by 28 pixels: nine fit in a row, the tenth row starts at
`y = 252 < 256`, and the last image is drawn at `(0, 252)`-`(28, 280)` in the 256 by 256
atlas. -/
theorem generateSpriteSheet_overflows_atlas :
    (generateSpriteSheet listOrder 1 oneLarge =
      some (.ok (⟨⟨0, 0, 256, 256⟩, [⟨"a", ⟨0, -1, 300, 299⟩, ⟨300, 300⟩⟩]⟩,
        [("a", { URL := emoticonURL "a", Text := "a", Img := ⟨300, 300⟩,
                 Bounds := ⟨⟨0, 257⟩, ⟨300, -43⟩⟩ })])) ∧
      ¬ Rectangle.within ⟨0, -1, 300, 299⟩ 256) ∧
    (∃ m out, generateSpriteSheet listOrder 1 (smallEmotes 82) = some (.ok (m, out)) ∧
      m.bounds = ⟨0, 0, 256, 256⟩ ∧
      (m.draws.map fun d => d.r).getLast? = some ⟨0, 252, 28, 280⟩ ∧
      (out.map fun e => placedRect 256 e).getLast? = some ⟨0, 252, 28, 280⟩ ∧
      ¬ Rectangle.within ⟨0, 252, 28, 280⟩ 256) := by
  refine ⟨⟨by decide, by simp [Rectangle.within]⟩, _, _, rfl, ?_, ?_, ?_, ?_⟩
  · decide
  · set_option maxRecDepth 100000 in decide
  · set_option maxRecDepth 100000 in decide
  · simp [Rectangle.within]

/-- C2: when `generateSpriteSheet` returns an atlas for images of non-negative width and
height, enumerated in any order in each pass, the rectangles drawn into the atlas are pairwise
disjoint as half-open rectangles, and so are the rectangles the recorded `Bounds` of any two
entries of the cache stand for. -/
theorem generateSpriteSheet_no_overlap (order : Nat → Cache → Cache) (fuel : Nat)
    (cache : Cache) (m : SpriteMap) (out : Cache)
    (horder : ∀ n c, (order n c).Perm c)
    (hdims : ∀ e ∈ cache, 0 ≤ e.2.Img.Dx ∧ 0 ≤ e.2.Img.Dy)
    (hres : generateSpriteSheet order fuel cache = some (.ok (m, out))) :
    m.draws.Pairwise (fun d₁ d₂ => d₁.r.disjoint d₂.r) ∧
    out.Pairwise (fun e₁ e₂ =>
      (placedRect m.bounds.Dy e₁).disjoint (placedRect m.bounds.Dy e₂)) := by
  obtain ⟨j, entries, s, hs, hperm, hfit, hm, hout, hb⟩ :=
    generateSpriteSheet_final_pass order horder fuel cache m out hres
  have hdims' := dims_of_payload_perm hperm hdims
  have hpair : m.draws.Pairwise (fun d₁ d₂ => d₁.r.disjoint d₂.r) := by
    rw [← hm, hs]
    exact fitLoop_pairwise _ _ entries _ hdims' (ScanInv_initFit _ _)
  refine ⟨hpair, ?_⟩
  have hH : m.bounds.Dy = 256 * 2 ^ j := by simp [hb, Rectangle.Dy]
  have hrec : List.Forall₂ (recordedAt (256 * 2 ^ j)) out m.draws := by
    rw [← hm, ← hout, hs]
    exact fitLoop_recorded _ _ entries _ (hs ▸ hfit) List.Forall₂.nil
  have hout_dims : ∀ e ∈ out, 0 ≤ e.2.Img.Dx ∧ 0 ≤ e.2.Img.Dy := by
    apply dims_of_payload_perm _ hdims'
    rw [← hout, hs, fitLoop_payload]
    simp [initFit]
  have hmap := map_placedRect_of_recorded _ out m.draws hrec hout_dims
  rw [hH]
  have h1 : (out.map (placedRect (256 * 2 ^ j))).Pairwise Rectangle.disjoint := by
    rw [hmap, List.pairwise_map]
    exact hpair
  exact List.pairwise_map.mp h1

/-- The packing of `threeSquares`: an instance of C2. -/
theorem generateSpriteSheet_no_overlap_witness :
    (∀ n c, (listOrder n c).Perm c) ∧
    (∀ e ∈ threeSquares, 0 ≤ e.2.Img.Dx ∧ 0 ≤ e.2.Img.Dy) ∧
    generateSpriteSheet listOrder 2 threeSquares = some (.ok threeSquaresSheet) ∧
    threeSquaresSheet.1.draws.Pairwise (fun d₁ d₂ => d₁.r.disjoint d₂.r) ∧
    threeSquaresSheet.2.Pairwise (fun e₁ e₂ =>
      (placedRect threeSquaresSheet.1.bounds.Dy e₁).disjoint
        (placedRect threeSquaresSheet.1.bounds.Dy e₂)) :=
  ⟨fun _ c => List.Perm.refl c, by decide, by decide,
    generateSpriteSheet_no_overlap listOrder 2 threeSquares threeSquaresSheet.1
      threeSquaresSheet.2 (fun _ c => List.Perm.refl c) (by decide) (by decide)⟩

/-- C3: for every cache, whatever the enumeration order of each pass, `generateSpriteSheet`
runs some number `k` of passes that give up and then a pass that succeeds: with fuel for at
most `k` passes the loop is still running, with any more it returns an atlas and a nil
error, always the same one.  The `return` of line 88 is never reached.  The atlas is the
square of side `256 * 2 ^ k`, and for the empty cache it is the empty 256 by 256 atlas. -/
theorem generateSpriteSheet_terminates (order : Nat → Cache → Cache) (cache : Cache)
    (horder : ∀ n c, (order n c).Perm c) :
    ∃ (k : Nat) (m : SpriteMap) (out : Cache),
      (∀ fuel, fuel ≤ k → generateSpriteSheet order fuel cache = none) ∧
      (∀ fuel, k < fuel → generateSpriteSheet order fuel cache = some (.ok (m, out))) ∧
      (∀ fuel msg, generateSpriteSheet order fuel cache ≠ some (.error msg)) ∧
      m.bounds = ⟨0, 0, 256 * 2 ^ k, 256 * 2 ^ k⟩ ∧
      (cache = [] → k = 0 ∧ m = ⟨⟨0, 0, 256, 256⟩, []⟩ ∧ out = []) :=
  generateSpriteSheet_runs order cache horder

/-- The packing of `threeSquares`: an instance of C3. -/
theorem generateSpriteSheet_terminates_witness :
    (∀ n c, (listOrder n c).Perm c) ∧
    ∃ (k : Nat) (m : SpriteMap) (out : Cache),
      (∀ fuel, fuel ≤ k → generateSpriteSheet listOrder fuel threeSquares = none) ∧
      (∀ fuel, k < fuel → generateSpriteSheet listOrder fuel threeSquares = some (.ok (m, out))) ∧
      (∀ fuel msg, generateSpriteSheet listOrder fuel threeSquares ≠ some (.error msg)) ∧
      m.bounds = ⟨0, 0, 256 * 2 ^ k, 256 * 2 ^ k⟩ ∧
      (threeSquares = [] → k = 0 ∧ m = ⟨⟨0, 0, 256, 256⟩, []⟩ ∧ out = []) :=
  ⟨fun _ c => List.Perm.refl c,
    generateSpriteSheet_terminates listOrder threeSquares (fun _ c => List.Perm.refl c)⟩

/-- C10: when `generateSpriteSheet` returns an atlas `m`, the cache it leaves holds the
entries it was given (same keys and images), and entry by entry the recorded `Bounds` is
the Y flip, in the height of `m`, of the rectangle drawn into `m` for that entry:
`Min = (x, H - y)` and `Max = (x + Dx, H - (y + Dy))`.  So `Bounds.W()` is the image width
and `Bounds.H()` is minus the image height.  The draws of `m` and all the `Bounds` come from
one complete pass at the final size, none from a pass that gave up. -/
theorem generateSpriteSheet_bounds_from_final_pass (order : Nat → Cache → Cache)
    (fuel : Nat) (cache : Cache) (m : SpriteMap) (out : Cache)
    (horder : ∀ n c, (order n c).Perm c)
    (hres : generateSpriteSheet order fuel cache = some (.ok (m, out))) :
    (out.map payload).Perm (cache.map payload) ∧
    List.Forall₂ (recordedAt m.bounds.Dy) out m.draws ∧
    (∀ e ∈ out, e.2.Bounds.W = e.2.Img.Dx ∧ e.2.Bounds.H = -e.2.Img.Dy) ∧
    ∃ (j : Nat) (entries : Cache) (s : FitState),
      s = fitLoop (256 * 2 ^ j) (256 * 2 ^ j) entries (initFit (256 * 2 ^ j) (256 * 2 ^ j)) ∧
      (entries.map payload).Perm (cache.map payload) ∧
      s.fit = true ∧ s.spriteMap = m ∧ s.cache = out ∧
      m.bounds = ⟨0, 0, 256 * 2 ^ j, 256 * 2 ^ j⟩ := by
  obtain ⟨j, entries, s, hs, hperm, hfit, hm, hout, hb⟩ :=
    generateSpriteSheet_final_pass order horder fuel cache m out hres
  have hH : m.bounds.Dy = 256 * 2 ^ j := by simp [hb, Rectangle.Dy]
  have hrec : List.Forall₂ (recordedAt m.bounds.Dy) out m.draws := by
    rw [hH, ← hm, ← hout, hs]
    exact fitLoop_recorded _ _ entries _ (hs ▸ hfit) List.Forall₂.nil
  refine ⟨?_, hrec, ?_, j, entries, s, hs, hperm, hfit, hm, hout, hb⟩
  · rw [← hout, hs, fitLoop_payload]
    simpa [initFit] using hperm
  · intro e he
    obtain ⟨d, _, _, _, x, y, _, hbounds⟩ := forall₂_exists_right hrec e he
    rw [hbounds]
    simp only [Rect.W, Rect.H]
    constructor <;> omega

/-- The packing of `threeSquares`: an instance of C10. -/
theorem generateSpriteSheet_bounds_from_final_pass_witness :
    (∀ n c, (listOrder n c).Perm c) ∧
    generateSpriteSheet listOrder 2 threeSquares = some (.ok threeSquaresSheet) ∧
    (threeSquaresSheet.2.map payload).Perm (threeSquares.map payload) ∧
    List.Forall₂ (recordedAt threeSquaresSheet.1.bounds.Dy) threeSquaresSheet.2
      threeSquaresSheet.1.draws ∧
    (∀ e ∈ threeSquaresSheet.2, e.2.Bounds.W = e.2.Img.Dx ∧ e.2.Bounds.H = -e.2.Img.Dy) :=
  have h := generateSpriteSheet_bounds_from_final_pass listOrder 2 threeSquares
    threeSquaresSheet.1 threeSquaresSheet.2 (fun _ c => List.Perm.refl c) (by decide)
  ⟨fun _ c => List.Perm.refl c, by decide, h.1, h.2.1, h.2.2.1⟩

/-! ## The emoticon cache: one download and one entry per identifier -/

/-- The cache `NewEmoticonCache` returns has an entry for every emoticon the comments
refer to, so the `GetSprite` calls of the frame loop all succeed. -/
theorem NewEmoticonCache_covers (downloadImage : String → Except String Image)
    (order : Nat → Cache → Cache) (fuel : Nat) (comments : List Message)
    (e : EmoticonCache) (log : List String) (horder : ∀ n c, (order n c).Perm c)
    (h : NewEmoticonCache downloadImage order fuel comments = (some (.ok e), log)) :
    Covers e comments := by
  unfold NewEmoticonCache at h
  rcases hp : populate downloadImage comments [] [] with ⟨r, log₁⟩
  rw [hp] at h
  cases r with
  | error err => simp at h
  | ok cache =>
    simp only at h
    cases hg : generateSpriteSheet order fuel cache with
    | none => rw [hg] at h; simp at h
    | some res =>
      cases res with
      | error err => rw [hg] at h; simp at h
      | ok pair =>
        obtain ⟨m, out⟩ := pair
        rw [hg] at h
        simp only [Prod.mk.injEq, Option.some.injEq, Except.ok.injEq] at h
        obtain ⟨_, entries, _, hs, hperm, _, _, hout, _⟩ :=
          generateSpriteSheet_final_pass order horder fuel cache m out hg
        have hkeys : (Cache.keys out).Perm cache.keys := by
          apply keys_perm_of_payload
          rw [← hout, hs, fitLoop_payload]
          simpa [initFit] using hperm
        intro c hc f hf hne hnone
        have hin : f.Emoticon.EmoticonID ∈ cache.keys := by
          apply populate_keys downloadImage comments [] cache [] log₁ hp
          refine Or.inr ⟨hne, ?_⟩
          simp only [emoticonIDs, List.mem_flatten, List.mem_map]
          exact ⟨_, ⟨c, hc, rfl⟩, List.mem_map_of_mem _ hf⟩
        rw [← h.1] at hnone
        exact (Cache.get_eq_none_iff _ _).mp hnone (hkeys.symm.subset hin)

/-- C4: when the download succeeds for every non-empty emoticon identifier of the
transcript, `NewEmoticonCache` returns a cache (for every fuel above some bound) and the
downloads it made are, up to order, the URLs of the distinct non-empty identifiers: each
such URL is requested exactly once however many fragments use the identifier, and the URL
of the empty identifier never.  The cache has one entry per distinct non-empty identifier,
and `Length()` is their number. -/
theorem NewEmoticonCache_one_download_per_id (downloadImage : String → Except String Image)
    (order : Nat → Cache → Cache) (comments : List Message)
    (horder : ∀ n c, (order n c).Perm c)
    (hfetch : ∀ id ∈ emoticonIDs comments, id ≠ "" →
      ∃ img, downloadImage (emoticonURL id) = .ok img) :
    ∃ (k : Nat) (e : EmoticonCache) (log : List String),
      (∀ fuel, k < fuel →
        NewEmoticonCache downloadImage order fuel comments = (some (.ok e), log)) ∧
      log.Perm ((distinctIDs comments).map emoticonURL) ∧
      (∀ id ∈ emoticonIDs comments, id ≠ "" → log.count (emoticonURL id) = 1) ∧
      emoticonURL "" ∉ log ∧
      e.cache.keys.Nodup ∧ e.cache.keys.Perm (distinctIDs comments) ∧
      e.Length = (distinctIDs comments).length := by
  obtain ⟨cache, hpop, hnodup, hmem⟩ :=
    populate_spec downloadImage comments [] hfetch List.nodup_nil
  change populate downloadImage comments [] [] = _ at hpop
  obtain ⟨k, m, out, _, hsome, _, _, _⟩ := generateSpriteSheet_runs order cache horder
  obtain ⟨_, entries, _, hs, hperm, _, _, hout, _⟩ :=
    generateSpriteSheet_final_pass order horder (k + 1) cache m out (hsome (k + 1) (by omega))
  have hkeys_out : (Cache.keys out).Perm cache.keys := by
    apply keys_perm_of_payload
    rw [← hout, hs, fitLoop_payload]
    simpa [initFit] using hperm
  have hmem' : ∀ id, id ∈ cache.keys ↔ id ∈ distinctIDs comments := by
    intro id
    rw [hmem id]
    simp [distinctIDs, Cache.keys, and_comm]
  have hkeys : cache.keys.Perm (distinctIDs comments) :=
    (List.perm_ext_iff_of_nodup hnodup (List.nodup_dedup _)).mpr hmem'
  have hlog_nodup : (cache.keys.map emoticonURL).Nodup :=
    hnodup.map emoticonURL_injective
  refine ⟨k, ⟨out, m⟩, cache.keys.map emoticonURL, ?_, hkeys.map _, ?_, ?_,
    hkeys_out.nodup_iff.mpr hnodup, hkeys_out.trans hkeys, ?_⟩
  · intro fuel hfuel
    simp only [NewEmoticonCache, hpop, hsome fuel hfuel]
  · intro id hid hne
    apply List.count_eq_one_of_mem hlog_nodup
    apply List.mem_map_of_mem
    rw [hmem id]
    exact Or.inr ⟨hne, hid⟩
  · intro hin
    obtain ⟨id, hid, hurl⟩ := List.mem_map.mp hin
    have : id = "" := emoticonURL_injective hurl
    subst this
    rcases (hmem "").mp hid with h | ⟨h, _⟩
    · simp [Cache.keys] at h
    · exact h rfl
  · show out.length = _
    have h1 : out.length = (Cache.keys out).length := by simp [Cache.keys]
    rw [h1, (hkeys_out.trans hkeys).length_eq]

/-- The cache of `sampleChat`, two downloads for four emoticon fragments: an instance of
C4. -/
theorem NewEmoticonCache_one_download_per_id_witness :
    (∀ n c, (listOrder n c).Perm c) ∧
    (∀ id ∈ emoticonIDs sampleChat, id ≠ "" →
      ∃ img, sampleDownload (emoticonURL id) = .ok img) ∧
    NewEmoticonCache sampleDownload listOrder 1 sampleChat =
      (some (.ok sampleEmotes), [emoticonURL "25", emoticonURL "88"]) ∧
    ∃ (k : Nat) (e : EmoticonCache) (log : List String),
      (∀ fuel, k < fuel →
        NewEmoticonCache sampleDownload listOrder fuel sampleChat = (some (.ok e), log)) ∧
      log.Perm ((distinctIDs sampleChat).map emoticonURL) ∧
      (∀ id ∈ emoticonIDs sampleChat, id ≠ "" → log.count (emoticonURL id) = 1) ∧
      emoticonURL "" ∉ log ∧
      e.cache.keys.Nodup ∧ e.cache.keys.Perm (distinctIDs sampleChat) ∧
      e.Length = (distinctIDs sampleChat).length :=
  ⟨fun _ c => List.Perm.refl c, fun _ _ _ => ⟨⟨28, 28⟩, rfl⟩, by decide,
    NewEmoticonCache_one_download_per_id sampleDownload listOrder sampleChat
      (fun _ c => List.Perm.refl c) (fun _ _ _ => ⟨⟨28, 28⟩, rfl⟩)⟩

/-! ## The frame loop: cursor and visible comments -/

/-- C8, at the failing input: with a chat four units wide, characters one unit wide, the
author `ab` and the single word `cd`, the line already holds `ab:` (three units) and
`3 + 2 > 4`, yet no line break is written before `cd`: the test of line 254 measures
`lineString + part = "abcd"`, which leaves out the colon written on line 223. -/
theorem layoutComment_wrap_ignores_colon :
    layoutComment unitLayout sampleEmotes (chat 1 "ab" [textPart "cd"]) [] =
      .ok [.write "ab:", .write "cd ", .write "\n"] ∧
    unitLayout.boundsW "ab:" + unitLayout.boundsW "cd" > unitLayout.ChatBoundsW ∧
    ¬ (unitLayout.boundsW ("ab" ++ "cd") + 0 > unitLayout.ChatBoundsW) := by
  have h1 : "abcd".length = 4 := by decide
  have h2 : "ab:".length = 3 := by decide
  have h3 : "cd".length = 2 := by decide
  refine ⟨?_, ?_, ?_⟩
  · simp [layoutComment, layoutFragments, layoutParts, stringsSplit, splitChars, unitLayout,
      chat, textPart, h1]
  · simp only [unitLayout, h2, h3]; norm_num
  · simp [unitLayout, h1]

end TwitchChatRenderer
